import Mathlib

/-!
# Verification of the finit boot orchestration engine (src/src/finit.c)

Shallow embedding of the boot sequencer, the bounded-retry completion gate
(`final_worker`), the filesystem phase (`fsck`/`fsck_all`/`fs_remount_root`/
`fs_init`), the terminal action (`finalize`), the emergency-shell fork path
(`emergency_shell`) and the `main` bootstrap sequence, as trace-producing
functions over an environment of external inputs.

External collaborators (the supervisor, plugin registry, condition store,
configuration loader, ...) are represented by the observable events the C code
triggers; their results that feed back into control flow (fsck exit codes,
`service_completed`, `mount -na` failure, file-presence tests) are fields of
`BootEnv`.
-/

namespace Finit

/-- The fixed hook points fired by finit.c (`HOOK_BANNER`, `HOOK_ROOTFS_UP`,
`HOOK_MOUNT_ERROR`, `HOOK_MOUNT_POST`, `HOOK_BASEFS_UP`, `HOOK_SVC_UP`,
`HOOK_SYSTEM_UP`). -/
inductive Hook where
  | banner
  | rootfs_up
  | mount_error
  | mount_post
  | basefs_up
  | svc_up
  | system_up
deriving DecidableEq, Repr

/-- Modelled from the spec: `plugin_hook_str` (plugin.c is not part of src/)
derives a deterministic condition name from a hook point's identifier. -/
def plugin_hook_str : Hook → String
  | .banner      => "hook/banner"
  | .rootfs_up   => "hook/rootfs-up"
  | .mount_error => "hook/mount-error"
  | .mount_post  => "hook/mount-post"
  | .basefs_up   => "hook/basefs-up"
  | .svc_up      => "hook/svc-up"
  | .system_up   => "hook/system-up"

/-- Observable events of the boot sequence, one per externally visible action
performed by finit.c. -/
inductive Ev where
  | confParseCmdline
  | uevInit
  | setPath
  | setShell
  | chdirRoot
  | umaskSet (mask : Nat)
  | screenInit
  | emergencyFork
  | pluginInit
  | hook (h : Hook)
  | callback (h : Hook) (idx : Nat)
  | printBanner
  | sigInit
  | cgroupInit
  | fsckPass (pass : Nat) (rc : Nat)
  | remountAdvisory
  | remountRw
  | mountAll (failed : Bool)
  | swapon
  | confInit
  | condInit
  | condSet (name : String)
  | sigSetup
  | confMonitor
  | apiInit
  | schedCrank
  | schedFinal
  | enterLoop
  | smInit
  | smStep
  | stepAll
  | poll (done : Bool)
  | reschedule
  | msgSuccess
  | msgTimeout
  | finalizeCall
  | runParts
  | serviceRunlevel (lvl : Int)
  | pruneBootstrap
  | runRcLocal
  | logSilent
  | ttyRunlevel
  | assertFail
deriving DecidableEq, Repr

/-- External inputs that feed back into finit.c's control flow, plus the
registry size per hook point (plugin.c is external). -/
structure BootEnv where
  /-- `rescue` mode from the kernel command line. -/
  rescue : Bool
  /-- `log_is_debug()`: debug on the kernel command line. -/
  debug : Bool
  /-- `EMERGENCY_SHELL` compile-time option. -/
  emergencyShell : Bool
  /-- `log_is_silent()` at the time `banner()` runs. -/
  logIsSilent : Bool
  /-- Number of plugin callbacks registered per hook point. -/
  ncb : Hook → Nat
  /-- Aggregate return code of `fsck(pass)`: sum of the `run_interactive`
  results over the fstab entries with `fs_passno == pass` (1 if the fstab
  could not be opened). -/
  fsckRc : Nat → Nat
  /-- `setfsent()` succeeds in `fs_remount_root`. -/
  fstabOpen : Bool
  /-- `getfsent()` finds an entry with `fs_file == "/"`. -/
  rootInFstab : Bool
  /-- That root entry has `fs_type == "ro"`. -/
  rootRo : Bool
  /-- `run_interactive("mount -na", ...)` returned nonzero. -/
  mountFails : Bool
  /-- `runparts != NULL`. -/
  runpartsSet : Bool
  /-- `fisdir(runparts)`. -/
  runpartsIsDir : Bool
  /-- `!access(FINIT_RC_LOCAL, X_OK)`. -/
  rcLocalExec : Bool
  /-- Configured runlevel `cfglevel`. -/
  cfglevel : Int
  /-- Initial value of `final_worker`'s static attempt counter
  (`static int cnt = 120` in the source). -/
  budget : Nat
  /-- `service_completed()` as observed at the i-th evaluation (1-based). -/
  done : Nat → Bool

/-- `plugin_run_hooks(hook)`: fire the hook point, then run the registered
callbacks. Modelled from the spec: plugin.c is not in src/; per the spec the
callbacks of one point run synchronously in registration order. -/
def plugin_run_hooks (env : BootEnv) (h : Hook) : List Ev :=
  Ev.hook h :: (List.range (env.ncb h)).map (fun i => Ev.callback h i)

/-- `banner()`: fire `HOOK_BANNER`; print the heading unless logging is
silent. -/
def banner (env : BootEnv) : List Ev :=
  plugin_run_hooks env .banner ++ (if env.logIsSilent then [] else [Ev.printBanner])

/-- `fsck(pass)`: check every fstab entry with `fs_passno == pass`; the
aggregate exit status is an external input (`env.fsckRc pass`). -/
def fsck (env : BootEnv) (pass : Nat) : List Ev × Nat :=
  ([Ev.fsckPass pass (env.fsckRc pass)], env.fsckRc pass)

/-- The loop body of `fsck_all`: `for (pass = 1; pass < 10; pass++) { rc =
fsck(pass); if (rc) break; }`, unrolled as a recursion on the number of
remaining passes (`fuel = 10 - pass`). Returns the trace and the final `rc`
(0 when the loop runs to completion, since it only completes when every pass
returned 0). -/
def fsck_passes (env : BootEnv) (pass : Nat) : Nat → List Ev × Nat
  | 0 => ([], 0)
  | fuel + 1 =>
    let r := fsck env pass
    if r.2 ≠ 0 then r
    else
      let rest := fsck_passes env (pass + 1) fuel
      (r.1 ++ rest.1, rest.2)

/-- `fsck_all()`: run check passes 1..9 in ascending order, stopping at the
first pass with a nonzero return code. -/
def fsck_all (env : BootEnv) : List Ev × Nat :=
  fsck_passes env 1 9

/-- `fs_remount_root(fsckerr)` (the non-`SYSROOT` build): if fstab cannot be
opened, or `/` is not listed, or listed with type "ro", leave root alone;
otherwise, if fsck failed, print the advisory and skip the remount, else
remount `/` read-write. -/
def fs_remount_root (env : BootEnv) (fsckerr : Nat) : List Ev :=
  if env.fstabOpen = false then []
  else if env.rootInFstab = false ∨ env.rootRo = true then []
  else if fsckerr ≠ 0 then [Ev.remountAdvisory]
  else [Ev.remountRw]

/-- `fs_init()`: unless in rescue mode, run `fsck_all` and `fs_remount_root`;
fire `HOOK_ROOTFS_UP`; run `mount -na`, firing `HOOK_MOUNT_ERROR` on failure;
fire `HOOK_MOUNT_POST` unconditionally; `swapon -ea`; set umask 022. -/
def fs_init (env : BootEnv) : List Ev :=
  (if env.rescue then []
   else (fsck_all env).1 ++ fs_remount_root env (fsck_all env).2)
  ++ plugin_run_hooks env .rootfs_up
  ++ [Ev.mountAll env.mountFails]
  ++ (if env.mountFails then plugin_run_hooks env .mount_error else [])
  ++ plugin_run_hooks env .mount_post
  ++ [Ev.swapon, Ev.umaskSet 18]

/-- `finalize()`: run-parts directory (if set, a directory, and not in rescue
mode); `service_runlevel(cfglevel)`; `svc_prune_bootstrap()`; `HOOK_SVC_UP`;
`service_step_all`; `/etc/rc.local` (if executable and not in rescue mode);
`HOOK_SYSTEM_UP`; `service_step_all`; `log_silent()`; `tty_runlevel()`. -/
def finalize (env : BootEnv) : List Ev :=
  (if env.runpartsSet ∧ env.runpartsIsDir ∧ env.rescue = false
   then [Ev.runParts] else [])
  ++ [Ev.serviceRunlevel env.cfglevel, Ev.pruneBootstrap]
  ++ plugin_run_hooks env .svc_up
  ++ [Ev.stepAll]
  ++ (if env.rcLocalExec ∧ env.rescue = false then [Ev.runRcLocal] else [])
  ++ plugin_run_hooks env .system_up
  ++ [Ev.stepAll, Ev.logSilent, Ev.ttyRunlevel]

/-- `final_worker(work)`: the Completion Gate.  The C body is

```
static int cnt = 120;
service_step_all(SVC_TYPE_ANY);
if (cnt-- > 0 && !service_completed()) { schedule_work(work); return; }
if (cnt > 0) _d("All run/task have completed ..."); else _d("Timeout ...");
finalize();
```

`cnt` is the entry value of the static counter and `i` the 1-based index of
the next `service_completed()` evaluation.  The C counter is an `int` that is
post-decremented on every invocation (reaching −1 on the exhaustion call);
every use of it is a `> 0` comparison, so the entry value is carried as a
`Nat` and the two comparisons become the pattern split (`cnt = 0` entry:
short-circuit, `service_completed` not evaluated, timeout message) and, on a
successful poll with entry value `cnt + 1`, the post-decrement value `cnt`
decides the success/timeout message. -/
def final_worker (env : BootEnv) (done : Nat → Bool) : Nat → Nat → List Ev
  | 0, _ =>
    Ev.stepAll :: Ev.msgTimeout :: Ev.finalizeCall :: finalize env
  | cnt + 1, i =>
    Ev.stepAll ::
      if done i then
        Ev.poll true ::
          (if 0 < cnt then Ev.msgSuccess else Ev.msgTimeout) ::
            Ev.finalizeCall :: finalize env
      else
        Ev.poll false :: Ev.reschedule :: final_worker env done cnt (i + 1)

/-- `crank_worker`: `sm_init(&sm); sm_step(&sm);`. -/
def crank_worker : List Ev :=
  [Ev.smInit, Ev.smStep]

/-- The synchronous part of `main` on the PID-1 path (the `getpid() != 1`
client path returns before any of this). The `emergency_shell()` call
contributes only the fork in the continuing (child) process; the parent
branch is modelled separately by `emergency_shell_parent`. -/
def main_boot (env : BootEnv) : List Ev :=
  [Ev.confParseCmdline, Ev.uevInit, Ev.setPath, Ev.setShell,
   Ev.chdirRoot, Ev.umaskSet 0]
  ++ (if env.rescue = false ∧ env.debug = false then [Ev.screenInit] else [])
  ++ (if env.emergencyShell then [Ev.emergencyFork] else [])
  ++ [Ev.pluginInit]
  ++ banner env
  ++ [Ev.sigInit, Ev.cgroupInit]
  ++ fs_init env
  ++ [Ev.confInit, Ev.condInit,
      Ev.condSet (plugin_hook_str .banner),
      Ev.condSet (plugin_hook_str .rootfs_up),
      Ev.sigSetup]
  ++ plugin_run_hooks env .basefs_up
  ++ [Ev.confMonitor, Ev.apiInit, Ev.umaskSet 18,
      Ev.schedCrank, Ev.schedFinal, Ev.enterLoop]

/-- The full boot trace: `main`'s synchronous sequence, then the reactor runs
the immediate `crank` work item, then the delayed `final` work item (the
Completion Gate), whose self-rescheduling chain ends in `finalize`. -/
def boot_trace (env : BootEnv) : List Ev :=
  main_boot env ++ crank_worker ++ final_worker env env.done env.budget 1

/-- Modelled from the spec: `cond_set_oneshot` (cond.c is not in src/) marks
a named one-shot condition true, idempotently. -/
def cond_set_oneshot (store : List String) (name : String) : List String :=
  if name ∈ store then store else store ++ [name]

/-- The condition store that results from replaying the `condSet` events of a
trace, starting from a given store. -/
def cond_store_from (store : List String) (t : List Ev) : List String :=
  t.foldl (fun s e => match e with | Ev.condSet n => cond_set_oneshot s n | _ => s) store

/-- The condition store after a trace, starting empty. -/
def cond_store (t : List Ev) : List String :=
  cond_store_from [] t

/-- Modelled from the spec: `isSet(name)`, a pure membership query on the
condition store. -/
def cond_is_set (t : List Ev) (name : String) : Bool :=
  decide (name ∈ cond_store t)

/-- The names passed to `cond_set_oneshot` in a trace, in order. -/
def condNames (t : List Ev) : List String :=
  t.filterMap (fun e => match e with | Ev.condSet n => some n | _ => none)

/-- Recognizer: `service_completed()` evaluation events. -/
def is_poll : Ev → Bool
  | Ev.poll _ => true
  | _ => false

/-- Recognizer: `service_step_all` invocation events. -/
def is_step : Ev → Bool
  | Ev.stepAll => true
  | _ => false

/-- Recognizer: `finalize()` invocation events. -/
def is_finalize_call : Ev → Bool
  | Ev.finalizeCall => true
  | _ => false

/-- Recognizer: events that only the Completion Gate itself produces. -/
def gate_event : Ev → Bool
  | Ev.poll _ => true
  | Ev.reschedule => true
  | Ev.msgSuccess => true
  | Ev.msgTimeout => true
  | Ev.finalizeCall => true
  | _ => false

/-- Number of `service_completed()` evaluations in a trace. -/
def pollCount (t : List Ev) : Nat :=
  t.countP is_poll

/-- Number of `service_step_all` invocations in a trace. -/
def stepCount (t : List Ev) : Nat :=
  t.countP is_step

/-- Number of `finalize()` invocations in a trace. -/
def finalizeCount (t : List Ev) : Nat :=
  t.countP is_finalize_call

/-- The sequence of hook points fired in a trace, in order. -/
def hookSeq (t : List Ev) : List Hook :=
  t.filterMap (fun e => match e with | Ev.hook h => some h | _ => none)

/-- Number of times a given hook point fires in a trace. -/
def hookCount (t : List Ev) (h : Hook) : Nat :=
  (hookSeq t).count h

/-- The trace of the gate's first `d` unsuccessful poll rounds: step the
services, evaluate the predicate (false), reschedule. -/
def poll_rounds : Nat → List Ev
  | 0 => []
  | d + 1 => Ev.stepAll :: Ev.poll false :: Ev.reschedule :: poll_rounds d

/-- `finalize` invoked a second time, as the claim about re-entry discusses:
the C function is an ordinary static function with no guard state, so a
second call simply executes the body again. -/
def finalize_twice (env : BootEnv) : List Ev :=
  finalize env ++ finalize env

/-- Events of the emergency-shell code, attributed to the process that
performs them. `exitProc` (process exit after the shell ends) is part of the
vocabulary because the claim asserts it happens; the code never does it. -/
inductive PEv where
  | reapWait
  | crashMsg
  | setsidEv
  | setctty
  | execShell
  | exitProc
deriving DecidableEq, Repr

/-- `emergency_shell()`, parent branch (`pid != 0`), `EMERGENCY_SHELL`
build: loop on `waitpid(-1, NULL, WNOHANG)` until the forked child has been
reaped, print the crash diagnostics, `setsid()`, take the controlling TTY,
then `execl(_PATH_BSHELL, ...)` — the parent is replaced by the shell and
executes nothing further. -/
def emergency_shell_parent : List PEv :=
  [PEv.reapWait, PEv.crashMsg, PEv.setsidEv, PEv.setctty, PEv.execShell]

/-- `emergency_shell()`, child branch (`pid == 0`): falls through the `if`
and returns at once — the child continues the normal boot sequence. -/
def emergency_shell_child : List PEv :=
  []

/-- The claim's reading of the rescue path, for comparison with the source:
the fork's child is the rescue shell, and the (crashed) parent, after
blocking on the child, exits. -/
def rescue_shell_spec_claim : Prop :=
  PEv.execShell ∈ emergency_shell_child ∧ PEv.exitProc ∈ emergency_shell_parent

/-- The claim's reading of finalize re-entry, for comparison with the source:
a second invocation contributes only a fatal assertion, never the body. -/
def finalize_reentry_spec_claim (env : BootEnv) : Prop :=
  finalize_twice env = finalize env ++ [Ev.assertFail]

/-- The claim's reading of the configuration phase order, for comparison with
the source: the directory-sourced configuration read (`conf_monitor`) occurs
before the condition store is initialized (`cond_init`). -/
def dir_conf_before_cond_spec_claim (t : List Ev) : Prop :=
  t.findIdx (fun e => e = Ev.confMonitor) < t.findIdx (fun e => e = Ev.condInit)

/-- The claim's reading of the gate diagnostics, for comparison with the
source: whenever the gate exits by a successful poll, the diagnostic reports
success. -/
def gate_success_reported_spec_claim (env : BootEnv) (done : Nat → Bool) (n : Nat) : Prop :=
  Ev.poll true ∈ final_worker env done n 1 →
    Ev.msgSuccess ∈ final_worker env done n 1

/-- Recognizer: the externally visible steps of `finalize` named by the
specification (run-parts, runlevel switch, bootstrap pruning, hook points,
the legacy script, console silencing, TTY start). -/
def finalize_step : Ev → Bool
  | Ev.runParts => true
  | Ev.serviceRunlevel _ => true
  | Ev.pruneBootstrap => true
  | Ev.hook _ => true
  | Ev.runRcLocal => true
  | Ev.logSilent => true
  | Ev.ttyRunlevel => true
  | _ => false

/-- The subsequence of a trace consisting of `finalize`'s specified steps. -/
def finSeq (t : List Ev) : List Ev :=
  t.filter finalize_step

/-- A concrete test environment used to instantiate the theorems. -/
def env0 : BootEnv where
  rescue := false
  debug := false
  emergencyShell := false
  logIsSilent := false
  ncb := fun _ => 0
  fsckRc := fun _ => 0
  fstabOpen := true
  rootInFstab := true
  rootRo := false
  mountFails := false
  runpartsSet := true
  runpartsIsDir := true
  rcLocalExec := true
  cfglevel := 2
  budget := 2
  done := fun _ => true

/-- A rescue-mode environment in which the run-parts directory exists and the
legacy script is executable. -/
def envR : BootEnv where
  rescue := true
  debug := false
  emergencyShell := false
  logIsSilent := false
  ncb := fun _ => 0
  fsckRc := fun _ => 0
  fstabOpen := true
  rootInFstab := true
  rootRo := false
  mountFails := false
  runpartsSet := true
  runpartsIsDir := true
  rcLocalExec := true
  cfglevel := 2
  budget := 2
  done := fun _ => true

/-- An environment in which filesystem check pass 1 fails. -/
def envF : BootEnv where
  rescue := false
  debug := false
  emergencyShell := false
  logIsSilent := false
  ncb := fun _ => 0
  fsckRc := fun _ => 1
  fstabOpen := true
  rootInFstab := true
  rootRo := false
  mountFails := false
  runpartsSet := true
  runpartsIsDir := true
  rcLocalExec := true
  cfglevel := 2
  budget := 2
  done := fun _ => true

/-! ## Helper lemmas -/

/-- If the predicate is false on the next `cnt` evaluation indices, the gate
performs `cnt` failed poll rounds and then, on the exhaustion invocation,
steps once more, reports timeout, and finalizes. -/
theorem final_worker_eq_of_never (env : BootEnv) (done : Nat → Bool) :
    ∀ cnt i, (∀ e, e < cnt → done (i + e) = false) →
      final_worker env done cnt i =
        poll_rounds cnt ++ Ev.stepAll :: Ev.msgTimeout :: Ev.finalizeCall :: finalize env := by
  intro cnt
  induction cnt with
  | zero => intro i _; simp [final_worker, poll_rounds]
  | succ c ih =>
    intro i hfalse
    have h0 : done i = false := by simpa using hfalse 0 (Nat.succ_pos c)
    have hrec := ih (i + 1) (fun e he => by
      have := hfalse (e + 1) (Nat.succ_lt_succ he)
      simpa [Nat.add_assoc, Nat.add_comm 1 e] using this)
    simp [final_worker, h0, poll_rounds, hrec]

/-- If the predicate is false for `d` evaluations and then true, with `d`
within the budget, the gate performs `d` failed rounds, then a successful
poll, reports success exactly when the post-decrement counter is still
positive (`0 < cnt - d - 1`), and finalizes. -/
theorem final_worker_eq_of_first_true (env : BootEnv) (done : Nat → Bool) :
    ∀ d cnt i, d < cnt → (∀ e, e < d → done (i + e) = false) → done (i + d) = true →
      final_worker env done cnt i =
        poll_rounds d ++ Ev.stepAll :: Ev.poll true ::
          (if 0 < cnt - d - 1 then Ev.msgSuccess else Ev.msgTimeout) ::
            Ev.finalizeCall :: finalize env := by
  intro d
  induction d with
  | zero =>
    intro cnt i hd _ htrue
    cases cnt with
    | zero => omega
    | succ c =>
      have htrue' : done i = true := by simpa using htrue
      have hc : c + 1 - 0 - 1 = c := by omega
      simp [final_worker, htrue', poll_rounds, hc]
  | succ d ih =>
    intro cnt i hd hfalse htrue
    cases cnt with
    | zero => omega
    | succ c =>
      have h0 : done i = false := by simpa using hfalse 0 (Nat.succ_pos d)
      have hrec := ih c (i + 1) (by omega)
        (fun e he => by
          have := hfalse (e + 1) (Nat.succ_lt_succ he)
          simpa [Nat.add_assoc, Nat.add_comm 1 e] using this)
        (by
          have h : i + 1 + d = i + (d + 1) := by omega
          rw [h, htrue])
      have hc : c + 1 - (d + 1) - 1 = c - d - 1 := by omega
      simp [final_worker, h0, hrec, hc, poll_rounds]

theorem countP_callbacks (p : Ev → Bool)
    (hp : ∀ (h : Hook) (i : Nat), p (Ev.callback h i) = false)
    (h : Hook) (l : List Nat) :
    (l.map (fun i => Ev.callback h i)).countP p = 0 := by
  induction l with
  | nil => rfl
  | cons x xs ih => simp [List.countP_cons, hp, ih]

theorem countP_hooks (p : Ev → Bool)
    (hp : ∀ (h : Hook) (i : Nat), p (Ev.callback h i) = false)
    (hh : ∀ h : Hook, p (Ev.hook h) = false)
    (env : BootEnv) (h : Hook) :
    (plugin_run_hooks env h).countP p = 0 := by
  simp [plugin_run_hooks, List.countP_cons, hh, countP_callbacks p hp]

theorem countP_fsck_passes (p : Ev → Bool)
    (hp : ∀ pass rc, p (Ev.fsckPass pass rc) = false)
    (env : BootEnv) :
    ∀ fuel pass, ((fsck_passes env pass fuel).1).countP p = 0 := by
  intro fuel
  induction fuel with
  | zero => intro pass; rfl
  | succ f ih =>
    intro pass
    simp only [fsck_passes, fsck]
    split
    · simp [List.countP_cons, hp]
    · simp [List.countP_append, List.countP_cons, hp, ih]

theorem countP_fs_remount (p : Ev → Bool)
    (hA : p Ev.remountAdvisory = false) (hR : p Ev.remountRw = false)
    (env : BootEnv) (r : Nat) :
    (fs_remount_root env r).countP p = 0 := by
  unfold fs_remount_root
  split
  · rfl
  split
  · rfl
  split <;> simp [List.countP_cons, hA, hR]

theorem countP_ite_nil_right (p : Ev → Bool) (l : List Ev) (hl : l.countP p = 0)
    (c : Prop) [Decidable c] : List.countP p (if c then l else []) = 0 := by
  split <;> simp [hl]

theorem countP_ite_nil_left (p : Ev → Bool) (l : List Ev) (hl : l.countP p = 0)
    (c : Prop) [Decidable c] : List.countP p (if c then [] else l) = 0 := by
  split <;> simp [hl]

theorem countP_finalize (p : Ev → Bool)
    (h1 : p Ev.runParts = false) (h2 : ∀ l, p (Ev.serviceRunlevel l) = false)
    (h3 : p Ev.pruneBootstrap = false) (h4 : ∀ h : Hook, p (Ev.hook h) = false)
    (h5 : ∀ (h : Hook) (i : Nat), p (Ev.callback h i) = false)
    (h6 : p Ev.stepAll = false) (h7 : p Ev.runRcLocal = false)
    (h8 : p Ev.logSilent = false) (h9 : p Ev.ttyRunlevel = false)
    (env : BootEnv) :
    (finalize env).countP p = 0 := by
  unfold finalize
  simp [List.countP_append, List.countP_cons, h1, h2, h3, h4, h6, h7, h8, h9,
    countP_hooks p h5 h4, -List.countP_eq_zero,
    countP_ite_nil_right p [Ev.runParts] (by simp [List.countP_cons, h1]),
    countP_ite_nil_right p [Ev.runRcLocal] (by simp [List.countP_cons, h7])]

theorem countP_gate_event_main_boot (env : BootEnv) :
    (main_boot env).countP gate_event = 0 := by
  have hhooks : ∀ h, (plugin_run_hooks env h).countP gate_event = 0 :=
    countP_hooks gate_event (fun _ _ => rfl) (fun _ => rfl) env
  have hfsck : ((fsck_all env).1).countP gate_event = 0 :=
    countP_fsck_passes gate_event (fun _ _ => rfl) env 9 1
  have hrem : ∀ r, (fs_remount_root env r).countP gate_event = 0 :=
    countP_fs_remount gate_event rfl rfl env
  unfold main_boot banner fs_init
  simp [List.countP_append, List.countP_cons, hhooks, hfsck, hrem, gate_event,
    -List.countP_eq_zero,
    countP_ite_nil_right gate_event, countP_ite_nil_left gate_event]

theorem countP_zero_not_mem {p : Ev → Bool} {l : List Ev} (h : l.countP p = 0)
    (e : Ev) (he : p e = true) : e ∉ l := by
  rw [List.countP_eq_zero] at h
  exact fun hmem => (h e hmem) he

theorem pollCount_poll_rounds (d : Nat) : pollCount (poll_rounds d) = d := by
  induction d with
  | zero => rfl
  | succ d ih =>
    simp only [poll_rounds, pollCount, List.countP_cons] at *
    simp [is_poll, ih]

theorem stepCount_poll_rounds (d : Nat) : stepCount (poll_rounds d) = d := by
  induction d with
  | zero => rfl
  | succ d ih =>
    simp only [poll_rounds, stepCount, List.countP_cons] at *
    simp [is_step, ih]

theorem not_mem_poll_rounds (e : Ev) (he : e ≠ Ev.stepAll)
    (he' : e ≠ Ev.poll false) (he'' : e ≠ Ev.reschedule) :
    ∀ d, e ∉ poll_rounds d := by
  intro d
  induction d with
  | zero => simp [poll_rounds]
  | succ d ih => simp [poll_rounds, he, he', he'', ih]

theorem pollCount_finalize (env : BootEnv) : pollCount (finalize env) = 0 :=
  countP_finalize is_poll rfl (fun _ => rfl) rfl (fun _ => rfl) (fun _ _ => rfl)
    rfl rfl rfl rfl env

theorem finalizeCount_finalize (env : BootEnv) : finalizeCount (finalize env) = 0 :=
  countP_finalize is_finalize_call rfl (fun _ => rfl) rfl (fun _ => rfl)
    (fun _ _ => rfl) rfl rfl rfl rfl env

theorem gate_event_not_mem_finalize (env : BootEnv) (e : Ev)
    (he : gate_event e = true) : e ∉ finalize env :=
  countP_zero_not_mem
    (countP_finalize gate_event rfl (fun _ => rfl) rfl (fun _ => rfl)
      (fun _ _ => rfl) rfl rfl rfl rfl env) e he

/-- `finalize()` invokes itself exactly once along any gate trace. -/
theorem finalizeCount_final_worker (env : BootEnv) (done : Nat → Bool) :
    ∀ cnt i, finalizeCount (final_worker env done cnt i) = 1 := by
  have hf := finalizeCount_finalize env
  simp only [finalizeCount] at hf
  intro cnt
  induction cnt with
  | zero =>
    intro i
    simp [final_worker, finalizeCount, List.countP_cons, hf, is_finalize_call]
  | succ c ih =>
    intro i
    have ih' := ih (i + 1)
    simp only [finalizeCount] at ih'
    by_cases hd : done i = true <;> by_cases hc : 0 < c <;>
      simp [final_worker, hd, hc, finalizeCount, List.countP_cons, hf, ih',
        is_finalize_call]

/-! ### Hook sequence machinery -/

theorem hookSeq_nil : hookSeq [] = [] := rfl

theorem hookSeq_append (a b : List Ev) :
    hookSeq (a ++ b) = hookSeq a ++ hookSeq b := by
  simp [hookSeq]

theorem hookSeq_cons (e : Ev) (t : List Ev) :
    hookSeq (e :: t) =
      (match e with | Ev.hook h => [h] | _ => []) ++ hookSeq t := by
  cases e <;> simp [hookSeq]

theorem hookSeq_callbacks (h : Hook) (l : List Nat) :
    hookSeq (l.map (fun i => Ev.callback h i)) = [] := by
  induction l with
  | nil => rfl
  | cons x xs ih => simpa [hookSeq_cons] using ih

theorem hookSeq_hooks (env : BootEnv) (h : Hook) :
    hookSeq (plugin_run_hooks env h) = [h] := by
  simp [plugin_run_hooks, hookSeq_cons, hookSeq_callbacks]

theorem hookSeq_fsck_passes (env : BootEnv) :
    ∀ fuel pass, hookSeq (fsck_passes env pass fuel).1 = [] := by
  intro fuel
  induction fuel with
  | zero => intro pass; rfl
  | succ f ih =>
    intro pass
    simp only [fsck_passes, fsck]
    split
    · simp [hookSeq_cons, hookSeq_nil]
    · simp [hookSeq_append, hookSeq_cons, hookSeq_nil, ih]

theorem hookSeq_fs_remount (env : BootEnv) (r : Nat) :
    hookSeq (fs_remount_root env r) = [] := by
  unfold fs_remount_root
  split
  · rfl
  split
  · rfl
  split <;> rfl

theorem hookSeq_finalize (env : BootEnv) :
    hookSeq (finalize env) = [Hook.svc_up, Hook.system_up] := by
  unfold finalize
  simp [hookSeq_append, hookSeq_cons, hookSeq_hooks, apply_ite hookSeq,
    hookSeq_nil]

theorem hookSeq_poll_rounds (d : Nat) : hookSeq (poll_rounds d) = [] := by
  induction d with
  | zero => rfl
  | succ d ih => simpa [poll_rounds, hookSeq_cons] using ih

theorem hookSeq_final_worker (env : BootEnv) (done : Nat → Bool) :
    ∀ cnt i, hookSeq (final_worker env done cnt i) =
      [Hook.svc_up, Hook.system_up] := by
  intro cnt
  induction cnt with
  | zero =>
    intro i
    simp [final_worker, hookSeq_cons, hookSeq_finalize]
  | succ c ih =>
    intro i
    by_cases hd : done i = true <;> by_cases hc : 0 < c <;>
      simp [final_worker, hd, hc, hookSeq_cons, hookSeq_finalize, ih (i + 1)]

theorem hookSeq_main_boot (env : BootEnv) :
    hookSeq (main_boot env) =
      [Hook.banner, Hook.rootfs_up]
        ++ (if env.mountFails then [Hook.mount_error] else [])
        ++ [Hook.mount_post, Hook.basefs_up] := by
  unfold main_boot banner fs_init
  by_cases hm : env.mountFails = true <;>
    simp [hm, hookSeq_append, hookSeq_cons, hookSeq_hooks, hookSeq_fs_remount,
      apply_ite hookSeq, hookSeq_nil, fsck_all, hookSeq_fsck_passes]

/-- The hook points of the whole boot, in firing order. -/
theorem hookSeq_boot_trace (env : BootEnv) :
    hookSeq (boot_trace env) =
      [Hook.banner, Hook.rootfs_up]
        ++ (if env.mountFails then [Hook.mount_error] else [])
        ++ [Hook.mount_post, Hook.basefs_up, Hook.svc_up, Hook.system_up] := by
  by_cases hm : env.mountFails = true <;>
    simp [boot_trace, crank_worker, hookSeq_append, hookSeq_cons, hm,
      hookSeq_main_boot, hookSeq_final_worker]

/-! ### Condition-name machinery -/

theorem condNames_nil : condNames [] = [] := rfl

theorem condNames_append (a b : List Ev) :
    condNames (a ++ b) = condNames a ++ condNames b := by
  simp [condNames]

theorem condNames_cons (e : Ev) (t : List Ev) :
    condNames (e :: t) =
      (match e with | Ev.condSet n => [n] | _ => []) ++ condNames t := by
  cases e <;> simp [condNames]

theorem condNames_callbacks (h : Hook) (l : List Nat) :
    condNames (l.map (fun i => Ev.callback h i)) = [] := by
  induction l with
  | nil => rfl
  | cons x xs ih => simpa [condNames_cons] using ih

theorem condNames_hooks (env : BootEnv) (h : Hook) :
    condNames (plugin_run_hooks env h) = [] := by
  simp [plugin_run_hooks, condNames_cons, condNames_callbacks]

theorem condNames_fsck_passes (env : BootEnv) :
    ∀ fuel pass, condNames (fsck_passes env pass fuel).1 = [] := by
  intro fuel
  induction fuel with
  | zero => intro pass; rfl
  | succ f ih =>
    intro pass
    simp only [fsck_passes, fsck]
    split
    · simp [condNames_cons, condNames_nil]
    · simp [condNames_append, condNames_cons, condNames_nil, ih]

theorem condNames_fs_remount (env : BootEnv) (r : Nat) :
    condNames (fs_remount_root env r) = [] := by
  unfold fs_remount_root
  split
  · rfl
  split
  · rfl
  split <;> rfl

theorem condNames_finalize (env : BootEnv) : condNames (finalize env) = [] := by
  unfold finalize
  simp [condNames_append, condNames_cons, condNames_hooks,
    apply_ite condNames, condNames_nil]

theorem condNames_final_worker (env : BootEnv) (done : Nat → Bool) :
    ∀ cnt i, condNames (final_worker env done cnt i) = [] := by
  intro cnt
  induction cnt with
  | zero =>
    intro i
    simp [final_worker, condNames_cons, condNames_finalize]
  | succ c ih =>
    intro i
    by_cases hd : done i = true <;> by_cases hc : 0 < c <;>
      simp [final_worker, hd, hc, condNames_cons, condNames_finalize, ih (i + 1)]

/-- The only one-shot conditions ever set during boot are the retroactive
ones for the banner and rootfs-up hook points. -/
theorem condNames_boot_trace (env : BootEnv) :
    condNames (boot_trace env) =
      [plugin_hook_str .banner, plugin_hook_str .rootfs_up] := by
  simp [boot_trace, crank_worker, main_boot, banner, fs_init, condNames_append,
    condNames_cons, condNames_hooks, condNames_fs_remount, fsck_all,
    condNames_fsck_passes, apply_ite condNames, condNames_nil,
    condNames_final_worker]

theorem mem_cond_set_oneshot (s : List String) (m n : String) :
    n ∈ cond_set_oneshot s m ↔ n ∈ s ∨ n = m := by
  unfold cond_set_oneshot
  by_cases hm : m ∈ s
  · rw [if_pos hm]
    constructor
    · exact Or.inl
    · rintro (h | rfl)
      · exact h
      · exact hm
  · rw [if_neg hm]
    simp [List.mem_append]

theorem mem_cond_store_from (n : String) :
    ∀ (t : List Ev) (s : List String),
      n ∈ cond_store_from s t ↔ n ∈ s ∨ n ∈ condNames t := by
  intro t
  induction t with
  | nil => intro s; simp [cond_store_from, condNames]
  | cons e t ih =>
    intro s
    cases e <;>
      simp only [cond_store_from, List.foldl_cons, condNames_cons] at * <;>
      simp [ih, mem_cond_set_oneshot, or_assoc]

/-- `isSet` answers true exactly for the names that were passed to
`cond_set_oneshot` in the trace. -/
theorem cond_is_set_true_iff (t : List Ev) (n : String) :
    cond_is_set t n = true ↔ n ∈ condNames t := by
  simp only [cond_is_set, cond_store, decide_eq_true_eq]
  rw [mem_cond_store_from n t []]
  simp

/-! ### Further helpers -/

/-- The gate's behaviour depends on the completion predicate only at the
evaluation indices it can reach: `i .. i + cnt - 1`. -/
theorem final_worker_done_congr (env : BootEnv) (d d' : Nat → Bool) :
    ∀ cnt i, (∀ j, i ≤ j → j < i + cnt → d j = d' j) →
      final_worker env d cnt i = final_worker env d' cnt i := by
  intro cnt
  induction cnt with
  | zero => intro i _; rfl
  | succ c ih =>
    intro i hagree
    have h0 : d i = d' i := hagree i (Nat.le_refl i) (by omega)
    simp only [final_worker, h0]
    by_cases hd : d' i = true <;>
      simp [hd, ih (i + 1) (fun j hj1 hj2 => hagree j (by omega) (by omega))]

theorem countP_sub_zero {p q : Ev → Bool} (hpq : ∀ a, p a = true → q a = true) :
    ∀ {l : List Ev}, l.countP q = 0 → l.countP p = 0 := by
  intro l hq
  rw [List.countP_eq_zero] at *
  exact fun a ha hpa => (hq a ha) (hpq a hpa)

/-- The fsck loop with the first nonzero return code at offset `d` runs
exactly the passes `start .. start + d`, in ascending order, and returns
that nonzero code. -/
theorem fsck_passes_stop (env : BootEnv) :
    ∀ d fuel start, d < fuel →
      (∀ e, e < d → env.fsckRc (start + e) = 0) →
      env.fsckRc (start + d) ≠ 0 →
      fsck_passes env start fuel =
        ((List.range' start (d + 1)).map
            (fun p => Ev.fsckPass p (env.fsckRc p)),
          env.fsckRc (start + d)) := by
  intro d
  induction d with
  | zero =>
    intro fuel start hd _ hnz
    cases fuel with
    | zero => omega
    | succ f =>
      have hnz' : env.fsckRc start ≠ 0 := by simpa using hnz
      simp [fsck_passes, fsck, hnz', List.range'_succ]
  | succ d ih =>
    intro fuel start hd hzero hnz
    cases fuel with
    | zero => omega
    | succ f =>
      have h0 : env.fsckRc start = 0 := by simpa using hzero 0 (Nat.succ_pos d)
      have hrec := ih f (start + 1) (by omega)
        (fun e he => by
          have := hzero (e + 1) (Nat.succ_lt_succ he)
          simpa [Nat.add_assoc, Nat.add_comm 1 e] using this)
        (by
          have h : start + 1 + d = start + (d + 1) := by omega
          rw [h]; exact hnz)
      simp [fsck_passes, fsck, h0, hrec, List.range'_succ,
        Nat.add_assoc, Nat.add_comm 1 d]

theorem remountRw_not_mem_fs_remount (env : BootEnv) (r : Nat) (hr : r ≠ 0) :
    Ev.remountRw ∉ fs_remount_root env r := by
  unfold fs_remount_root
  repeat' split
  all_goals simp_all

theorem finSeq_callbacks (h : Hook) (l : List Nat) :
    (l.map (fun i => Ev.callback h i)).filter finalize_step = [] := by
  induction l with
  | nil => rfl
  | cons x xs ih => simp [List.filter_cons, finalize_step, ih]

theorem finSeq_hooks (env : BootEnv) (h : Hook) :
    finSeq (plugin_run_hooks env h) = [Ev.hook h] := by
  simp [finSeq, plugin_run_hooks, List.filter_cons, finalize_step,
    finSeq_callbacks]

/-! ## Claim theorems -/

/-- C1: for every attempt budget N ≥ 0, a Completion Gate (`final_worker`)
whose completion predicate never returns true terminates after exactly N
polls and invokes the terminal action (`finalize`) exactly once; and for
every predicate that first becomes true at poll k ≤ N, the gate invokes the
terminal action exactly once, immediately after poll k (only the diagnostic
message stands between the successful poll and the `finalize` call), and
never polls again afterward. -/
theorem completion_gate_bounded_polling :
    (∀ (env : BootEnv) (done : Nat → Bool) (N : Nat),
      (∀ i, done i = false) →
        pollCount (final_worker env done N 1) = N ∧
        finalizeCount (final_worker env done N 1) = 1) ∧
    (∀ (env : BootEnv) (done : Nat → Bool) (N k : Nat),
      1 ≤ k → k ≤ N →
      (∀ j, 1 ≤ j → j < k → done j = false) → done k = true →
        pollCount (final_worker env done N 1) = k ∧
        finalizeCount (final_worker env done N 1) = 1 ∧
        ∃ pre m, final_worker env done N 1 =
            pre ++ Ev.poll true :: m :: Ev.finalizeCall :: finalize env ∧
          pollCount pre = k - 1 ∧ pollCount (finalize env) = 0) := by
  constructor
  · intro env done N hnever
    refine ⟨?_, finalizeCount_final_worker env done N 1⟩
    have h := final_worker_eq_of_never env done N 1 (fun e _ => hnever (1 + e))
    have hpp := pollCount_poll_rounds N
    have hpf := pollCount_finalize env
    simp only [pollCount] at hpp hpf ⊢
    rw [h]
    simp [List.countP_append, List.countP_cons, hpp, hpf, is_poll]
  · intro env done N k hk1 hkN hfalse htrue
    have hd : k - 1 < N := by omega
    have h := final_worker_eq_of_first_true env done (k - 1) N 1 hd
      (fun e he => hfalse (1 + e) (by omega) (by omega))
      (by rw [show 1 + (k - 1) = k by omega]; exact htrue)
    have hpp := pollCount_poll_rounds (k - 1)
    have hpf := pollCount_finalize env
    refine ⟨?_, finalizeCount_final_worker env done N 1, ?_⟩
    · simp only [pollCount] at hpp hpf ⊢
      rw [h, List.countP_append, hpp]
      have hm : List.countP is_poll
          (Ev.stepAll :: Ev.poll true ::
            (if 0 < N - (k - 1) - 1 then Ev.msgSuccess else Ev.msgTimeout) ::
            Ev.finalizeCall :: finalize env) = 1 := by
        have hmsg : is_poll
            (if 0 < N - (k - 1) - 1 then Ev.msgSuccess else Ev.msgTimeout) = false := by
          split <;> rfl
        simp only [List.countP_cons, hpf]
        rw [hmsg]
        simp [is_poll]
      rw [hm]
      omega
    · refine ⟨poll_rounds (k - 1) ++ [Ev.stepAll],
        (if 0 < N - (k - 1) - 1 then Ev.msgSuccess else Ev.msgTimeout),
        ?_, ?_, hpf⟩
      · rw [h]; simp
      · simp only [pollCount] at hpp ⊢
        rw [List.countP_append, hpp]
        simp [is_poll]

/-- Witness for C1 at budget 3: a never-true predicate yields 3 polls and
one finalize; a predicate first true at poll 2 yields 2 polls. -/
theorem completion_gate_bounded_polling_witness :
    (pollCount (final_worker env0 (fun _ => false) 3 1) = 3 ∧
      finalizeCount (final_worker env0 (fun _ => false) 3 1) = 1) ∧
    pollCount (final_worker env0 (fun i => decide (2 ≤ i)) 3 1) = 2 := by
  refine ⟨completion_gate_bounded_polling.1 env0 _ 3 (fun i => rfl), ?_⟩
  exact (completion_gate_bounded_polling.2 env0 _ 3 2 (by omega) (by omega)
    (fun j h1 h2 => by
      have hj : j = 1 := by omega
      subst hj; rfl)
    (by decide)).1

/-- C10: the gate's behaviour never depends on the completion predicate
beyond its first N evaluations — in particular, on the invocation at which
the budget is exhausted the predicate is not evaluated (the budget test
short-circuits) although the step function still runs, and the terminal
action follows regardless of whether the outstanding work completed during
that final step; with the predicate false throughout the budget, the trace
ends with a step, no poll, the timeout diagnostic and the `finalize` call,
after exactly N polls. -/
theorem gate_exhaustion_steps_without_poll :
    (∀ (env : BootEnv) (d d' : Nat → Bool) (N : Nat),
      (∀ j, 1 ≤ j → j ≤ N → d j = d' j) →
        final_worker env d N 1 = final_worker env d' N 1) ∧
    (∀ (env : BootEnv) (done : Nat → Bool) (N : Nat),
      (∀ j, 1 ≤ j → j ≤ N → done j = false) →
        final_worker env done N 1 =
          poll_rounds N ++
            Ev.stepAll :: Ev.msgTimeout :: Ev.finalizeCall :: finalize env ∧
        pollCount (final_worker env done N 1) = N) := by
  constructor
  · intro env d d' N hagree
    exact final_worker_done_congr env d d' N 1
      (fun j hj1 hj2 => hagree j hj1 (by omega))
  · intro env done N hfalse
    have h := final_worker_eq_of_never env done N 1
      (fun e he => hfalse (1 + e) (by omega) (by omega))
    refine ⟨h, ?_⟩
    have hpp := pollCount_poll_rounds N
    have hpf := pollCount_finalize env
    simp only [pollCount] at hpp hpf ⊢
    rw [h, List.countP_append, hpp]
    simp [List.countP_cons, hpf, is_poll]

/-- Witness for C10 at budget 2: two predicates that agree on polls 1-2 but
differ at index 3 give identical gate traces; a never-true predicate gives
the exhaustion-shaped trace with 2 polls. -/
theorem gate_exhaustion_steps_without_poll_witness :
    final_worker env0 (fun _ => false) 2 1 =
      final_worker env0 (fun i => decide (2 < i)) 2 1 ∧
    final_worker env0 (fun _ => false) 2 1 =
      poll_rounds 2 ++
        Ev.stepAll :: Ev.msgTimeout :: Ev.finalizeCall :: finalize env0 ∧
    pollCount (final_worker env0 (fun _ => false) 2 1) = 2 := by
  refine ⟨?_, gate_exhaustion_steps_without_poll.2 env0 _ 2 (fun j _ _ => rfl)⟩
  exact gate_exhaustion_steps_without_poll.1 env0 _ _ 2 (fun j h1 h2 => by
    have hj : j = 1 ∨ j = 2 := by omega
    rcases hj with rfl | rfl <;> rfl)

/-- C5 counterexample: with budget 2 and the completion predicate first true
at poll 2 (the final budgeted poll), the gate exits by a successful poll yet
its diagnostic reports timeout — success is not always reported as
success. -/
theorem gate_success_reported_spec_claim_cex :
    ¬ gate_success_reported_spec_claim env0 (fun i => decide (2 ≤ i)) 2 := by
  intro hcl
  have hpoll : Ev.poll true ∈ final_worker env0 (fun i => decide (2 ≤ i)) 2 1 := by
    decide
  exact absurd (hcl hpoll) (by decide)

/-- C5 amended: exhaustion of the attempt budget is not a failure — the gate
invokes the terminal action exactly once on every run, and the exit is
distinguished only by the diagnostic message; success is reported as success
when the predicate first becomes true before the final budgeted poll, while
a success on the final poll is, like exhaustion, reported as timeout. -/
theorem gate_exhaustion_not_failure :
    (∀ (env : BootEnv) (done : Nat → Bool) (N : Nat),
      finalizeCount (final_worker env done N 1) = 1) ∧
    (∀ (env : BootEnv) (done : Nat → Bool) (N k : Nat),
      1 ≤ k → k < N → (∀ j, 1 ≤ j → j < k → done j = false) → done k = true →
        Ev.msgSuccess ∈ final_worker env done N 1 ∧
        Ev.msgTimeout ∉ final_worker env done N 1) ∧
    (∀ (env : BootEnv) (done : Nat → Bool) (N : Nat),
      (∀ j, 1 ≤ j → j < N → done j = false) →
        Ev.msgTimeout ∈ final_worker env done N 1 ∧
        Ev.msgSuccess ∉ final_worker env done N 1) := by
  refine ⟨fun env done N => finalizeCount_final_worker env done N 1, ?_, ?_⟩
  · intro env done N k hk1 hkN hfalse htrue
    have h := final_worker_eq_of_first_true env done (k - 1) N 1 (by omega)
      (fun e he => hfalse (1 + e) (by omega) (by omega))
      (by rw [show 1 + (k - 1) = k by omega]; exact htrue)
    have hcond : 0 < N - (k - 1) - 1 := by omega
    rw [h, if_pos hcond]
    constructor
    · simp
    · simp only [List.mem_append, List.mem_cons, not_or]
      refine ⟨not_mem_poll_rounds Ev.msgTimeout (by decide) (by decide)
        (by decide) (k - 1), by decide, by decide, by decide, by decide,
        gate_event_not_mem_finalize env Ev.msgTimeout rfl⟩
  · intro env done N hfalse
    rcases Nat.eq_zero_or_pos N with rfl | hN
    · have h := final_worker_eq_of_never env done 0 1 (fun e he => by omega)
      rw [h]
      constructor
      · simp
      · simp only [List.mem_append, List.mem_cons, not_or]
        exact ⟨not_mem_poll_rounds Ev.msgSuccess (by decide) (by decide)
          (by decide) 0, by decide, by decide, by decide,
          gate_event_not_mem_finalize env Ev.msgSuccess rfl⟩
    · by_cases hdN : done N = true
      · have h := final_worker_eq_of_first_true env done (N - 1) N 1 (by omega)
          (fun e he => hfalse (1 + e) (by omega) (by omega))
          (by rw [show 1 + (N - 1) = N by omega]; exact hdN)
        have hcond : ¬ 0 < N - (N - 1) - 1 := by omega
        rw [h, if_neg hcond]
        constructor
        · simp
        · simp only [List.mem_append, List.mem_cons, not_or]
          exact ⟨not_mem_poll_rounds Ev.msgSuccess (by decide) (by decide)
            (by decide) (N - 1), by decide, by decide, by decide, by decide,
            gate_event_not_mem_finalize env Ev.msgSuccess rfl⟩
      · have h := final_worker_eq_of_never env done N 1 (fun e he => by
          rcases Nat.lt_or_ge (1 + e) N with hlt | hge
          · exact hfalse (1 + e) (by omega) hlt
          · have : 1 + e = N := by omega
            rw [this]
            simpa using hdN)
        rw [h]
        constructor
        · simp
        · simp only [List.mem_append, List.mem_cons, not_or]
          exact ⟨not_mem_poll_rounds Ev.msgSuccess (by decide) (by decide)
            (by decide) N, by decide, by decide, by decide,
            gate_event_not_mem_finalize env Ev.msgSuccess rfl⟩

/-- Witness for C5 (amended) at budget 3: one gate run finalizing once; a
success at poll 1 < 3 reported as success; a never-true predicate reported
as timeout. -/
theorem gate_exhaustion_not_failure_witness :
    finalizeCount (final_worker env0 (fun _ => false) 3 1) = 1 ∧
    Ev.msgSuccess ∈ final_worker env0 (fun _ => true) 3 1 ∧
    Ev.msgTimeout ∈ final_worker env0 (fun _ => false) 3 1 := by
  refine ⟨gate_exhaustion_not_failure.1 env0 _ 3, ?_, ?_⟩
  · exact (gate_exhaustion_not_failure.2.1 env0 _ 3 1 (by omega) (by omega)
      (fun j h1 h2 => by omega) rfl).1
  · exact (gate_exhaustion_not_failure.2.2 env0 _ 3 (fun j _ _ => rfl)).1

/-- C2 counterexample: invoking the embedded `finalize` a second time does
not produce a fatal assertion — the body simply runs again, silently. -/
theorem finalize_reentry_spec_claim_cex :
    ¬ finalize_reentry_spec_claim env0 := by
  unfold finalize_reentry_spec_claim finalize_twice
  decide

/-- C2 amended: `finalize` is invoked exactly once per boot — the Completion
Gate calls it exactly once and nothing else calls it; but the code carries no
assertion against re-entry: a hypothetical second invocation would execute
the whole body again with no assertion failure. -/
theorem finalize_at_most_once (env : BootEnv) :
    finalizeCount (boot_trace env) = 1 ∧
    finalize_twice env = finalize env ++ finalize env ∧
    Ev.assertFail ∉ finalize_twice env := by
  refine ⟨?_, rfl, ?_⟩
  · have hmain : (main_boot env).countP is_finalize_call = 0 :=
      countP_sub_zero
        (fun a => by cases a <;> simp [is_finalize_call, gate_event])
        (countP_gate_event_main_boot env)
    have hgate := finalizeCount_final_worker env env.done env.budget 1
    simp only [finalizeCount] at hgate ⊢
    simp [boot_trace, crank_worker, List.countP_append, List.countP_cons,
      hmain, hgate, is_finalize_call, -List.countP_eq_zero]
  · have hfin : (finalize env).countP
        (fun e => match e with | Ev.assertFail => true | _ => false) = 0 :=
      countP_finalize _ rfl (fun _ => rfl) rfl (fun _ => rfl) (fun _ _ => rfl)
        rfl rfl rfl rfl env
    have hnm := countP_zero_not_mem hfin Ev.assertFail rfl
    simp [finalize_twice, List.mem_append, hnm]

/-- C4: hook points fire in the fixed total order banner, rootfs-up,
mount-error (exactly when mount-all fails), mount-post (unconditionally),
basefs-up, services-up, system-up — for every environment, in particular for
every number of callbacks registered per hook point. -/
theorem hook_points_fixed_order (env : BootEnv) :
    hookSeq (boot_trace env) =
      [Hook.banner, Hook.rootfs_up]
        ++ (if env.mountFails then [Hook.mount_error] else [])
        ++ [Hook.mount_post, Hook.basefs_up, Hook.svc_up, Hook.system_up] :=
  hookSeq_boot_trace env

/-- C8: the banner and rootfs-up hook points fire exactly once, before the
condition store is initialized; right after `cond_init` the sequencer
retroactively sets their one-shot conditions, so `isSet` answers true for
both names without either hook firing again. -/
theorem retroactive_oneshot_conditions (env : BootEnv) :
    hookCount (boot_trace env) .banner = 1 ∧
    hookCount (boot_trace env) .rootfs_up = 1 ∧
    cond_is_set (boot_trace env) (plugin_hook_str .banner) = true ∧
    cond_is_set (boot_trace env) (plugin_hook_str .rootfs_up) = true ∧
    ∃ pre post,
      boot_trace env =
        pre ++ [Ev.confInit, Ev.condInit,
          Ev.condSet (plugin_hook_str .banner),
          Ev.condSet (plugin_hook_str .rootfs_up), Ev.sigSetup] ++ post ∧
      Ev.hook .banner ∈ pre ∧ Ev.hook .rootfs_up ∈ pre := by
  refine ⟨?_, ?_, ?_, ?_, ?_⟩
  · by_cases hm : env.mountFails = true <;>
      simp [hookCount, hookSeq_boot_trace, hm]
  · by_cases hm : env.mountFails = true <;>
      simp [hookCount, hookSeq_boot_trace, hm]
  · rw [cond_is_set_true_iff, condNames_boot_trace]
    simp
  · rw [cond_is_set_true_iff, condNames_boot_trace]
    simp
  · refine ⟨[Ev.confParseCmdline, Ev.uevInit, Ev.setPath, Ev.setShell,
      Ev.chdirRoot, Ev.umaskSet 0]
      ++ (if env.rescue = false ∧ env.debug = false then [Ev.screenInit] else [])
      ++ (if env.emergencyShell then [Ev.emergencyFork] else [])
      ++ [Ev.pluginInit] ++ banner env ++ [Ev.sigInit, Ev.cgroupInit]
      ++ fs_init env,
      plugin_run_hooks env .basefs_up
      ++ [Ev.confMonitor, Ev.apiInit, Ev.umaskSet 18,
          Ev.schedCrank, Ev.schedFinal, Ev.enterLoop]
      ++ crank_worker ++ final_worker env env.done env.budget 1, ?_, ?_, ?_⟩
    · simp [boot_trace, main_boot, List.append_assoc]
    · simp [banner, plugin_run_hooks]
    · simp [fs_init, plugin_run_hooks]

/-- C3 counterexample: in the boot trace, the directory-sourced
configuration read (`conf_monitor`) does not precede the condition-store
initialization (`cond_init`) — the claimed order of the configuration phase
fails on the code. -/
theorem dir_conf_before_cond_spec_claim_cex :
    ¬ dir_conf_before_cond_spec_claim (boot_trace env0) := by
  unfold dir_conf_before_cond_spec_claim
  decide

/-- C3 amended: the configuration phase parses the static configuration,
then initializes the condition store, retroactively sets the banner and
rootfs-up one-shot conditions, re-enables standard signal handling and fires
the basefs-up hook; the directory-sourced configuration is read only after
all of that, when the configuration-directory watcher (`conf_monitor`)
starts. -/
theorem config_phase_order (env : BootEnv) :
    ∃ pre post,
      boot_trace env =
        pre ++ [Ev.confInit, Ev.condInit,
          Ev.condSet (plugin_hook_str .banner),
          Ev.condSet (plugin_hook_str .rootfs_up), Ev.sigSetup]
          ++ plugin_run_hooks env .basefs_up ++ [Ev.confMonitor] ++ post := by
  refine ⟨[Ev.confParseCmdline, Ev.uevInit, Ev.setPath, Ev.setShell,
    Ev.chdirRoot, Ev.umaskSet 0]
    ++ (if env.rescue = false ∧ env.debug = false then [Ev.screenInit] else [])
    ++ (if env.emergencyShell then [Ev.emergencyFork] else [])
    ++ [Ev.pluginInit] ++ banner env ++ [Ev.sigInit, Ev.cgroupInit]
    ++ fs_init env,
    [Ev.apiInit, Ev.umaskSet 18, Ev.schedCrank, Ev.schedFinal, Ev.enterLoop]
    ++ crank_worker ++ final_worker env env.done env.budget 1, ?_⟩
  simp [boot_trace, main_boot, List.append_assoc]

/-- C6: `fsck_all` iterates check passes 1..9 in ascending order and stops
at the first pass with a nonzero result, returning that result; when pass 1
fails, the root remount-read-write never happens, the advisory message is
printed (for a normally configured fstab root), and mount-all still
proceeds. -/
theorem fsck_ascending_stop_early :
    (∀ (env : BootEnv) (k : Nat), 1 ≤ k → k ≤ 9 →
      (∀ p, 1 ≤ p → p < k → env.fsckRc p = 0) → env.fsckRc k ≠ 0 →
        fsck_all env =
          ((List.range' 1 k).map (fun p => Ev.fsckPass p (env.fsckRc p)),
            env.fsckRc k)) ∧
    (∀ env : BootEnv, env.rescue = false → env.fsckRc 1 ≠ 0 →
      Ev.remountRw ∉ fs_init env) ∧
    (∀ env : BootEnv, env.rescue = false → env.fsckRc 1 ≠ 0 →
      env.fstabOpen = true → env.rootInFstab = true → env.rootRo = false →
        Ev.remountAdvisory ∈ fs_init env) ∧
    (∀ env : BootEnv, Ev.mountAll env.mountFails ∈ fs_init env) := by
  have hfirst : ∀ env : BootEnv, env.fsckRc 1 ≠ 0 →
      fsck_passes env 1 9 = ([Ev.fsckPass 1 (env.fsckRc 1)], env.fsckRc 1) := by
    intro env hnz
    have h := fsck_passes_stop env 0 9 1 (by omega) (fun e he => by omega)
      (by simpa using hnz)
    simpa [List.range'_succ] using h
  refine ⟨?_, ?_, ?_, ?_⟩
  · intro env k hk1 hk9 hzero hnz
    have h := fsck_passes_stop env (k - 1) 9 1 (by omega)
      (fun e he => hzero (1 + e) (by omega) (by omega))
      (by rw [show 1 + (k - 1) = k by omega]; exact hnz)
    rw [fsck_all, h, show k - 1 + 1 = k by omega, show 1 + (k - 1) = k by omega]
  · intro env hresc hnz
    intro hmem
    have hrw := remountRw_not_mem_fs_remount env (env.fsckRc 1) hnz
    by_cases hm : env.mountFails = true <;>
      simp [fs_init, hresc, hm, fsck_all, hfirst env hnz, plugin_run_hooks,
        List.mem_append, List.mem_map, hrw] at hmem
  · intro env hresc hnz hfs hroot hro
    have hrem : fs_remount_root env (env.fsckRc 1) = [Ev.remountAdvisory] := by
      simp [fs_remount_root, hfs, hroot, hro, hnz]
    simp [fs_init, hresc, fsck_all, hfirst env hnz, hrem, List.mem_append]
  · intro env
    simp [fs_init, List.mem_append]

/-- Witness for C6: in an environment whose check pass 1 returns 1, the
check loop stops after pass 1 with result 1, the remount is skipped, the
advisory is printed, and mount-all still runs. -/
theorem fsck_ascending_stop_early_witness :
    fsck_all envF = ([Ev.fsckPass 1 1], 1) ∧
    Ev.remountRw ∉ fs_init envF ∧
    Ev.remountAdvisory ∈ fs_init envF ∧
    Ev.mountAll envF.mountFails ∈ fs_init envF := by
  refine ⟨?_, fsck_ascending_stop_early.2.1 envF rfl (by decide),
    fsck_ascending_stop_early.2.2.1 envF rfl (by decide) rfl rfl rfl,
    fsck_ascending_stop_early.2.2.2 envF⟩
  have h := fsck_ascending_stop_early.1 envF 1 (by omega) (by omega)
    (fun p h1 h2 => by omega) (by decide)
  rw [h]
  decide

/-- C7: `finalize` performs its specified steps in the order run-parts
(present only when configured, a directory, and not in rescue mode),
runlevel switch, bootstrap pruning, services-up hook, legacy script (only if
executable and not in rescue mode), system-up hook, console silencing, TTY
start; with the rescue flag set, run-parts and the legacy script are both
skipped regardless of their presence on disk. -/
theorem finalize_order_and_rescue :
    (∀ env : BootEnv,
      finSeq (finalize env) =
        (if env.runpartsSet ∧ env.runpartsIsDir ∧ env.rescue = false
          then [Ev.runParts] else [])
        ++ [Ev.serviceRunlevel env.cfglevel, Ev.pruneBootstrap, Ev.hook .svc_up]
        ++ (if env.rcLocalExec ∧ env.rescue = false then [Ev.runRcLocal] else [])
        ++ [Ev.hook .system_up, Ev.logSilent, Ev.ttyRunlevel]) ∧
    (∀ env : BootEnv, env.rescue = true →
      Ev.runParts ∉ finalize env ∧ Ev.runRcLocal ∉ finalize env) := by
  constructor
  · intro env
    unfold finalize
    simp [finSeq, List.filter_append, List.filter_cons, finalize_step,
      finSeq_callbacks, plugin_run_hooks,
      apply_ite (List.filter finalize_step)]
  · intro env hresc
    constructor <;> intro hmem <;>
      simp [finalize, hresc, plugin_run_hooks, List.mem_append,
        List.mem_map] at hmem

/-- Witness for C7: in a rescue-mode environment where the run-parts
directory exists and the legacy script is executable, neither runs. -/
theorem finalize_order_and_rescue_witness :
    Ev.runParts ∉ finalize envR ∧ Ev.runRcLocal ∉ finalize envR :=
  finalize_order_and_rescue.2 envR rfl

/-- C9 counterexample: the process forked by `emergency_shell` is not a
rescue shell — the child's branch performs nothing and returns to continue
the boot, and the parent never reaches an exit after its wait (it is
replaced by the shell via exec). -/
theorem rescue_shell_spec_claim_cex : ¬ rescue_shell_spec_claim := by
  unfold rescue_shell_spec_claim
  decide

/-- C9 amended: under `EMERGENCY_SHELL`, the startup code forks; the child
continues the normal boot, while the original process blocks reaping
children until that child exits, prints the crash diagnostics, becomes
session leader, takes the controlling TTY and replaces itself with a shell
via exec as its last action — it never executes an explicit exit. -/
theorem emergency_shell_blocks_then_execs :
    (∃ pre, emergency_shell_parent = pre ++ [PEv.execShell] ∧
      PEv.reapWait ∈ pre) ∧
    emergency_shell_child = [] ∧
    PEv.exitProc ∉ emergency_shell_parent := by
  exact ⟨⟨[PEv.reapWait, PEv.crashMsg, PEv.setsidEv, PEv.setctty],
    by decide, by decide⟩, rfl, by decide⟩

end Finit
